import Mathlib

/-!
Shallow embedding of the coffee-tracking TUI (src/main.rs): the modal
interaction state machine (command overlay, phase/view state machine, list
navigation, field-edit sub-machine), its numeric parsing/validation, and the
display/seed formatting, together with proofs about the claims of the spec.

Modelling conventions:
* Rust panics (`todo!`, `unreachable!`, `Option::unwrap` on `None`, and
  out-of-bounds `Vec` indexing) are modelled by `Option`-valued functions
  returning `none`.
* `f64` values are modelled exactly by the inductive `F64`: an integer
  fraction for finite values, plus the special values `inf`, `-inf` and
  `NaN`. The decimal values occurring in this program (seed data and anything
  typed through the keystroke-validated edit session, which cannot produce
  exponent notation) are represented exactly, so parsing and the two
  formatting routines used by the program (Rust `{}` shortest display and
  `{:.1}` fixed one-decimal display) agree with the binary-float originals on
  everything the claims observe.
* `Uuid::new_v4` (random) is modelled by deterministic distinct naturals;
  `chrono` timestamps are modelled by naturals and their display formatting
  by an opaque-but-total stand-in (`format_date`), never inspected by a claim.
* The external widget state consumed by the program is embedded from the
  libraries' semantics: ratatui `ListState` (`select_next` / `select_previous`
  saturate but do not clamp to the list length; the clamp to the length of the
  rendered list happens in the `List` widget's render) and `tui_input::Input`
  (a line editor over a value string and a char cursor).
-/

namespace CoffeeTracking

/-! ## Exact model of Rust `f64` values, `str::parse::<f64>`, and formatting -/

/-- Model of an `f64` value: finite values are carried exactly as fractions
`num / den` (`den` positive; a power of ten for every value the program
stores, since stored values only arise from decimal parsing and the seed
data); the special values infinity, negative infinity and NaN are explicit.
The representation is kept un-normalized so that every operation is plain
`Int`/`Nat` arithmetic, which the kernel evaluates; the program itself never
compares two `f64` values, so representational equality is only used in
theorem statements about concrete values. -/
inductive F64 where
  | fin (num : Int) (den : Nat)
  | inf
  | ninf
  | nan
deriving DecidableEq

/-- Digit string of a natural number, left-padded with zeros to length `k`. -/
def padLeftZeros (s : String) (k : Nat) : String :=
  (List.replicate (k - s.length) '0').asString ++ s

/-- Cancel matching trailing zeros of numerator and denominator (`185/10`
stays, `1850/100` becomes `185/10`), reaching the minimal decimal form of a
fraction whose denominator is a power of ten. -/
def stripTensAux : Nat → Int → Nat → Int × Nat
  | 0, n, d => (n, d)
  | fuel + 1, n, d =>
    if d % 10 = 0 ∧ d ≠ 0 ∧ n % 10 = 0 then stripTensAux fuel (n / 10) (d / 10) else (n, d)

/-- Entry point of `stripTensAux` (the fuel `d` bounds the number of
cancellable zeros, since each step divides the denominator by ten). -/
def stripTens (n : Int) (d : Nat) : Int × Nat :=
  stripTensAux d n d

def tenExpAux : Nat → Nat → Nat
  | 0, _ => 0
  | fuel + 1, d => if d ≤ 1 then 0 else tenExpAux fuel (d / 10) + 1

/-- The exponent `k` of a power of ten `d = 10 ^ k`. -/
def tenExp (d : Nat) : Nat :=
  tenExpAux d d

/-- Decimal digit characters of a natural number, accumulator- and
fuel-structural so that the kernel evaluates it (the fuel `n + 1` bounds the
digit count); renders exactly the standard decimal digits Rust prints. -/
def natDigitsAux : Nat → Nat → List Char → List Char
  | 0, _, acc => acc
  | fuel + 1, n, acc =>
    if n < 10 then Nat.digitChar n :: acc
    else natDigitsAux fuel (n / 10) (Nat.digitChar (n % 10) :: acc)

/-- The decimal rendering of a natural number. -/
def natDigits (n : Nat) : String :=
  (natDigitsAux (n + 1) n []).asString

/-- Shortest decimal rendering of `n / d` for `d` a power of ten: this is
what Rust's default `Display` for `f64` (`format!("{}", v)`) produces for the
values this program stores (e.g. `18.0` renders as `"18"`, `45.1` as
`"45.1"`). -/
def fmtFin (n : Int) (d : Nat) : String :=
  let (n, d) := stripTens n d
  if d ≤ 1 then (if n < 0 then "-" else "") ++ natDigits n.natAbs
  else
    let k := tenExp d
    (if n < 0 then "-" else "") ++
      natDigits (n.natAbs / d) ++ "." ++ padLeftZeros (natDigits (n.natAbs % d)) k

/-- Rust `format!("{}", v)` for an `f64` value `v`. -/
def fmtDefault : F64 → String
  | .fin n d => fmtFin n d
  | .inf => "inf"
  | .ninf => "-inf"
  | .nan => "NaN"

/-- Round `10 * nn / d` to the nearest natural, ties to even (`d` positive). -/
def rte10 (nn d : Nat) : Nat :=
  let q := 10 * nn / d
  let r := 10 * nn % d
  if 2 * r < d then q
  else if d < 2 * r then q + 1
  else if q % 2 = 0 then q else q + 1

/-- Rust `format!("{:.1}", v)` for an `f64` value `v`: fixed one-decimal
rendering, rounding ties to even (e.g. `18.0` renders as `"18.0"`). -/
def fmtFixed1 : F64 → String
  | .fin n d =>
    let m := rte10 n.natAbs d
    (if n < 0 then "-" else "") ++ natDigits (m / 10) ++ "." ++ natDigits (m % 10)
  | .inf => "inf"
  | .ninf => "-inf"
  | .nan => "NaN"

/-- Build a finite value from a fraction of integers, keeping the denominator
positive. -/
def F64.finOf (n d : Int) : F64 :=
  if d < 0 then .fin (-n) d.natAbs else .fin n d.natAbs

/-- Division of `f64` values (used only by the read-only "Ratio" display row). The sign
of a zero divisor is not tracked (finite zeros are unsigned in this model);
no claim observes that distinction. -/
def F64.div : F64 → F64 → F64
  | .nan, _ => .nan
  | .fin a ad, .fin b bd =>
    if b = 0 then (if a = 0 then .nan else if 0 < a then .inf else .ninf)
    else F64.finOf (a * (bd : Int)) (b * (ad : Int))
  | .fin _ _, .inf => .fin 0 1
  | .fin _ _, .ninf => .fin 0 1
  | .fin _ _, .nan => .nan
  | .inf, .fin b _ => if b < 0 then .ninf else .inf
  | .ninf, .fin b _ => if b < 0 then .inf else .ninf
  | .inf, _ => .nan
  | .ninf, _ => .nan

/-- Numeric value of a list of decimal digit characters. -/
def natOfDigits (ds : List Char) : Nat :=
  ds.foldl (fun acc c => acc * 10 + (c.toNat - '0'.toNat)) 0

/-- Parse the optional exponent suffix of the Rust float grammar
(`e`/`E`, optional sign, at least one digit, nothing trailing). An empty
remainder means exponent `0`. -/
def parseExpPart : List Char → Option Int
  | [] => some 0
  | c :: rest =>
    if c = 'e' ∨ c = 'E' then
      let (sgn, rest') :=
        match rest with
        | '+' :: t => ((1 : Int), t)
        | '-' :: t => ((-1 : Int), t)
        | t => ((1 : Int), t)
      let (ds, rest'') := rest'.span Char.isDigit
      if ds = [] ∨ rest'' ≠ [] then none
      else some (sgn * (natOfDigits ds : Int))
    else none

/-- Parse the `Number` production of the Rust `f64` grammar
(`Digit+ | Digit+ '.' Digit* | Digit* '.' Digit+`, then optional exponent),
producing the exact rational value. -/
def parseNumber (neg : Bool) (cs : List Char) : Option F64 :=
  let (d1, r1) := cs.span Char.isDigit
  let (d2, r3) :=
    match r1 with
    | '.' :: r2 => r2.span Char.isDigit
    | _ => (([] : List Char), r1)
  if d1 = [] ∧ d2 = [] then none
  else
    match parseExpPart r3 with
    | none => none
    | some e =>
      let m : Int := (natOfDigits (d1 ++ d2) : Int)
      let m := if neg then -m else m
      let den : Nat := 10 ^ d2.length
      some (if 0 ≤ e then .fin (m * 10 ^ e.toNat) den else .fin m (den * 10 ^ (-e).toNat))

/-- Model of Rust `s.parse::<f64>()`: optional sign, then (case-insensitively)
`inf`, `infinity`, `nan`, or a decimal number with optional exponent.
Finite results are exact rationals (binary rounding is not modelled; it is
unobservable at the precisions this program displays). -/
def parseF64 (s : String) : Option F64 :=
  let cs := s.toList
  let (neg, rest) :=
    match cs with
    | '+' :: t => (false, t)
    | '-' :: t => (true, t)
    | t => (false, t)
  let low := rest.map Char.toLower
  if low = "inf".toList ∨ low = "infinity".toList then
    some (if neg then .ninf else .inf)
  else if low = "nan".toList then some .nan
  else parseNumber neg rest

/-- Model of `valid_float` (src/main.rs): `s.parse::<f64>().is_ok()`. -/
def valid_float (s : String) : Bool :=
  (parseF64 s).isSome

/-! ## External widget state: ratatui `ListState`, tui_input `Input` -/

/-- ratatui `ListState`, reduced to its selection (the scroll offset is pure
render bookkeeping that no handler or claim reads). -/
structure ListState where
  selected : Option Nat
deriving DecidableEq

/-- Rust `usize::MAX`, the saturation bound of ratatui's selection moves. -/
def USIZE_MAX : Nat := 2 ^ 64 - 1

/-- ratatui `ListState::select_next`: saturating increment, selecting `0` when
nothing is selected. Until the list is rendered the selected index may lie
beyond the end of the list. -/
def ListState.select_next (s : ListState) : ListState :=
  ⟨some (match s.selected with | none => 0 | some i => min (i + 1) USIZE_MAX)⟩

/-- ratatui `ListState::select_previous`: saturating decrement, selecting
`usize::MAX` when nothing is selected. -/
def ListState.select_previous (s : ListState) : ListState :=
  ⟨some (match s.selected with | none => USIZE_MAX | some i => i - 1)⟩

/-- ratatui `ListState::select_first`. -/
def ListState.select_first (_s : ListState) : ListState :=
  ⟨some 0⟩

/-- The clamp the ratatui `List` widget applies to an out-of-bounds selection
when it renders a non-empty list of `len` items (an empty list is left
untouched by the early return in the widget). -/
def ListState.clampTo (s : ListState) (len : Nat) : ListState :=
  if len = 0 then s else ⟨s.selected.map fun i => min i (len - 1)⟩

/-- The key alphabet of the normalized keystroke abstraction: the keys the
dispatcher and the tui_input line editor distinguish. Modifier combinations
are outside the modelled alphabet. -/
inductive Key where
  | char (c : Char)
  | enter
  | backspace
  | esc
  | left
  | right
  | home
  | endKey
  | delete
  | other
deriving DecidableEq

/-- tui_input `Input`: a line-edit buffer with a character cursor. -/
structure Input where
  value : String
  cursor : Nat
deriving DecidableEq

/-- tui_input `Input::new`: cursor starts at the end of the value. -/
def Input.new (s : String) : Input :=
  ⟨s, s.length⟩

/-- tui_input `Input::handle_event` for a key press: character insertion at
the cursor, backspace/delete, and cursor movement; keys the editor does not
map (enter, escape, others) leave it unchanged. -/
def Input.handle_event (i : Input) : Key → Input
  | .char c =>
    let cs := i.value.toList
    ⟨(cs.take i.cursor ++ c :: cs.drop i.cursor).asString, i.cursor + 1⟩
  | .backspace =>
    if i.cursor = 0 then i
    else
      let cs := i.value.toList
      ⟨(cs.take (i.cursor - 1) ++ cs.drop i.cursor).asString, i.cursor - 1⟩
  | .delete =>
    let cs := i.value.toList
    ⟨(cs.take i.cursor ++ cs.drop (i.cursor + 1)).asString, i.cursor⟩
  | .left => ⟨i.value, i.cursor - 1⟩
  | .right => ⟨i.value, min (i.cursor + 1) i.value.length⟩
  | .home => ⟨i.value, 0⟩
  | .endKey => ⟨i.value, i.value.length⟩
  | _ => i

/-! ## Data model (src/main.rs) -/

/-- The two inner input modes (`InputMode`), used both by the command overlay
and by the field-edit sub-machine. -/
inductive InputMode where
  | normal
  | editing
deriving DecidableEq

/-- Model of `CommandState`: the command overlay's buffer and active flag. -/
structure CommandState where
  buffer : String
  input_mode : InputMode
deriving DecidableEq

/-- Model of `EditState`: field-list selection, inner mode, and edit-session buffer of
the `EditEntry` view. -/
structure EditState where
  list_state : ListState
  input_mode : InputMode
  input : Input
deriving DecidableEq

/-- Model of `AppState`. -/
structure AppState where
  entry_list_state : ListState
  command : CommandState
  edit : EditState
deriving DecidableEq

/-- Model of `Phase`: the top-level view mode. `editCoffee` and `editGrinder` are the
reserved dead states. -/
inductive Phase where
  | listView
  | editEntry (idx : Nat)
  | editCoffee
  | editGrinder
deriving DecidableEq

/-- Model of `Entry`: one logged brewing event. Timestamps are abstract naturals,
reference ids are the deterministic uuid stand-ins. -/
structure Entry where
  dt_added : Nat
  dt_taken : Nat
  coffee_id : Nat
  grinder_id : Nat
  grind_setting : F64
  duration : F64
  dose : F64
  output : F64
  favorite : Bool
  notes : String
deriving DecidableEq

/-- Model of `Coffee`: a category-A reference entity. -/
structure Coffee where
  name : String
  uuid : Nat
deriving DecidableEq

/-- Model of `Grinder`: a category-B reference entity. -/
structure Grinder where
  name : String
  uuid : Nat
deriving DecidableEq

/-- Model of `FieldType`: the field schema's kinds. -/
inductive FieldType where
  | date
  | coffeeType
  | grinderType
  | shortString
  | longString
  | undefined
deriving DecidableEq

/-- Model of `Entry::field_type` (src/main.rs): the arm order of the Rust `match`
(literals `0`/`1`/`2`, then the guard `i > 2 && i ≠ 6 && i ≠ 8`, then the
literal `8`, then the catch-all) is mirrored exactly. -/
def Entry.field_type (i : Nat) : FieldType :=
  match i with
  | 0 => .date
  | 1 => .coffeeType
  | 2 => .grinderType
  | n =>
    if 2 < n ∧ n ≠ 6 ∧ n ≠ 8 then .shortString
    else if n = 8 then .longString
    else .undefined

/-- Model of `App`: the whole application state. -/
structure App where
  state : AppState
  phase : Phase
  entries : List Entry
  coffees : List Coffee
  grinders : List Grinder
  exit : Bool
deriving DecidableEq

/-! ## Operations (src/main.rs) -/

/-- Opaque-but-total stand-in for chrono's `format(DATE_FMT)`; no claim
inspects the produced string. -/
def format_date (t : Nat) : String :=
  toString t

/-- The field read used by `App::field_val_as_string`: the fixed slot-to-
attribute table (3 → grind_setting, 4 → dose, 5 → output, 7 → duration,
anything else reads as `0.0`). -/
def entryFieldVal (e : Entry) (field_idx : Nat) : F64 :=
  match field_idx with
  | 3 => e.grind_setting
  | 4 => e.dose
  | 5 => e.output
  | 7 => e.duration
  | _ => .fin 0 1

/-- Model of `App::field_val_as_string`: the edit-session seed, `format!("{}", value)`
of the slot's current value; `none` models the index panic on an
out-of-bounds entry index. -/
def App.field_val_as_string (a : App) (entry_idx field_idx : Nat) : Option String :=
  (a.entries[entry_idx]?).map fun e => fmtDefault (entryFieldVal e field_idx)

/-- Model of `App::format_entry_details`: the nine display rows of the detail view;
`none` models the `unwrap` panic when a reference id fails to resolve. -/
def App.format_entry_details (a : App) (e : Entry) : Option (List String) :=
  match a.coffees.find? (fun c => c.uuid = e.coffee_id),
        a.grinders.find? (fun g => g.uuid = e.grinder_id) with
  | some c, some g =>
    some
      [ "  Date brewed: " ++ format_date e.dt_taken,
        "  Coffee: " ++ c.name,
        "  Grinder: " ++ g.name,
        "  Grind setting: " ++ fmtFixed1 e.grind_setting,
        "  Dose: " ++ fmtFixed1 e.dose ++ " g",
        "  Output: " ++ fmtFixed1 e.output ++ " g ",
        "  Ratio: " ++ fmtFixed1 (F64.div e.output e.dose) ++ " / 1",
        "  Duration: " ++ fmtFixed1 e.duration ++ " sec",
        "  Notes: " ++ e.notes ]
  | _, _ => none

/-- Split a character list at every occurrence of `c` (Rust `str::split`). -/
def splitOnChar (c : Char) : List Char → List (List Char)
  | [] => [[]]
  | x :: xs =>
    match splitOnChar c xs with
    | [] => [[x]]
    | h :: t => if x = c then [] :: h :: t else (x :: h) :: t

/-- Strip leading and trailing whitespace (Rust `str::trim`). -/
def trimChars (cs : List Char) : List Char :=
  ((cs.dropWhile Char.isWhitespace).reverse.dropWhile Char.isWhitespace).reverse

/-- The value part of a displayed detail row, as the Editing-mode render
carves it out: the text after the first `:`, trimmed, up to the first space
(so without the unit suffix). -/
def valuePart (s : String) : String :=
  ((splitOnChar ' ' (trimChars ((splitOnChar ':' s.toList).getD 1 []))).getD 0 []).asString

/-- Rust `String::pop` (drop the last character). -/
def stringPop (s : String) : String :=
  s.toList.dropLast.asString

/-- Model of `App::handle_command`: the command table; only `":q"` is recognized and
sets the exit flag. -/
def App.handle_command (a : App) (cmd : String) : App :=
  if cmd = ":q" then { a with exit := true } else a

/-- Model of `App::save_input`: commit of an edit-session buffer. `none` models the
`todo!` panics on unsupported field kinds and the index panic of the
attribute write; an unparseable buffer leaves the state untouched. -/
def App.save_input (a : App) (entry_idx : Nat) : Option App :=
  match a.state.edit.list_state.selected with
  | none => none
  | some sel =>
    match Entry.field_type sel with
    | .shortString =>
      match parseF64 a.state.edit.input.value with
      | some val =>
        let upd : Option (List Entry) :=
          match sel with
          | 3 => (a.entries[entry_idx]?).map fun e =>
                   a.entries.set entry_idx { e with grind_setting := val }
          | 4 => (a.entries[entry_idx]?).map fun e =>
                   a.entries.set entry_idx { e with dose := val }
          | 5 => (a.entries[entry_idx]?).map fun e =>
                   a.entries.set entry_idx { e with output := val }
          | 7 => (a.entries[entry_idx]?).map fun e =>
                   a.entries.set entry_idx { e with duration := val }
          | _ => some a.entries
        match upd with
        | none => none
        | some es => some { a with entries := es, state.edit.input_mode := InputMode.normal }
      | none => some a
    | _ => none

/-- Model of `App::handle_key_events_editentry`: the field-edit sub-machine. -/
def App.handle_key_events_editentry (a : App) (entry_idx : Nat) (k : Key) : Option App :=
  match a.state.edit.input_mode with
  | .normal =>
    match k with
    | .char 'q' => some { a with phase := Phase.listView }
    | .char 'j' => some { a with state.edit.list_state := a.state.edit.list_state.select_next }
    | .char 'k' => some { a with state.edit.list_state := a.state.edit.list_state.select_previous }
    | .char 'e' =>
      match a.state.edit.list_state.selected with
      | none => none
      | some field_idx =>
        match Entry.field_type field_idx with
        | .date => none
        | .coffeeType => none
        | .grinderType => none
        | .shortString =>
          match a.field_val_as_string entry_idx field_idx with
          | none => none
          | some s =>
            some { a with state.edit.input_mode := InputMode.editing,
                          state.edit.input := Input.new s }
        | .longString => none
        | .undefined => some a
    | _ => some a
  | .editing =>
    match a.state.edit.list_state.selected with
    | none => none
    | some sel =>
      if Entry.field_type sel = FieldType.shortString then
        match k with
        | .enter => a.save_input entry_idx
        | _ =>
          let oldval := a.state.edit.input.value
          let newInput := a.state.edit.input.handle_event k
          if valid_float newInput.value = false ∧ newInput.value ≠ "" then
            some { a with state.edit.input := Input.new oldval }
          else
            some { a with state.edit.input := newInput }
      else some a

/-- Model of `App::handle_key_events_listview`: list navigation (never panics). -/
def App.handle_key_events_listview (a : App) (k : Key) : App :=
  match k with
  | .char 'q' => { a with exit := true }
  | .char 'j' => { a with state.entry_list_state := a.state.entry_list_state.select_next }
  | .char 'k' => { a with state.entry_list_state := a.state.entry_list_state.select_previous }
  | .char 'g' => { a with state.entry_list_state := a.state.entry_list_state.select_first }
  | .enter =>
    match a.state.entry_list_state.selected with
    | some i => { a with phase := Phase.editEntry i }
    | none => a
  | _ => a

/-- Model of `App::handle_key_event`: the global dispatcher. Priority: active command
overlay, then the overlay trigger `':'`, then phase routing. -/
def App.handle_key_event (a : App) (k : Key) : Option App :=
  match a.state.command.input_mode with
  | .editing =>
    match k with
    | .char c =>
      some { a with state.command.buffer := a.state.command.buffer.push c }
    | .enter =>
      let a' := a.handle_command a.state.command.buffer
      some { a' with state.command.buffer := "", state.command.input_mode := InputMode.normal }
    | .backspace =>
      let b := stringPop a.state.command.buffer
      some { a with state.command.buffer := b,
                    state.command.input_mode :=
                      if b = "" then InputMode.normal else InputMode.editing }
    | .esc =>
      some { a with state.command.buffer := "", state.command.input_mode := InputMode.normal }
    | _ => some a
  | .normal =>
    if k = Key.char ':' then
      some { a with state.command.buffer := a.state.command.buffer.push ':',
                    state.command.input_mode := InputMode.editing }
    else
      match a.phase with
      | .listView => some (a.handle_key_events_listview k)
      | .editEntry idx => a.handle_key_events_editentry idx k
      | _ => some a

/-- The state mutation of one draw of the main loop: the ratatui `List`
widgets clamp an out-of-bounds selection to the rendered list's length.
`none` models the render-time panics: `todo!` on the dead phases and on
unsupported field kinds in Editing mode, `unreachable!` on an undefined kind,
the `unwrap` on a missing selection, and the panics of
`format_entry_details` and of indexing `entries[idx]`. -/
def App.render_step (a : App) : Option App :=
  match a.phase with
  | .listView =>
    if a.entries.all (fun e => (a.coffees.find? (fun c => c.uuid = e.coffee_id)).isSome) then
      some { a with state.entry_list_state := a.state.entry_list_state.clampTo a.entries.length }
    else none
  | .editEntry idx =>
    match a.entries[idx]? with
    | none => none
    | some e =>
      match a.format_entry_details e with
      | none => none
      | some rows =>
        match a.state.edit.input_mode with
        | .normal =>
          some { a with state.edit.list_state := a.state.edit.list_state.clampTo rows.length }
        | .editing =>
          match a.state.edit.list_state.selected with
          | none => none
          | some sel =>
            match Entry.field_type sel with
            | .shortString => some a
            | _ => none
  | .editCoffee => none
  | .editGrinder => none

/-- Fold the dispatcher alone over a keystroke list (no interleaved draws). -/
def App.handle_keys : App → List Key → Option App
  | a, [] => some a
  | a, k :: ks =>
    match a.handle_key_event k with
    | none => none
    | some a' => a'.handle_keys ks

/-- One iteration of the main loop as the user observes it: handle one key
event, then draw. -/
def App.run_step (a : App) (k : Key) : Option App :=
  match a.handle_key_event k with
  | none => none
  | some a' => a'.render_step

/-- The main loop over a keystroke list (a draw separates every two key
events). -/
def App.run_keys : App → List Key → Option App
  | a, [] => some a
  | a, k :: ks =>
    match a.run_step k with
    | none => none
    | some a' => a'.run_keys ks

/-- The seeded startup data and initial state (`impl Default for App` and
`impl Default for AppState`): three entries, two coffees, one grinder, both
selections at `0`, command overlay inactive, no edit session. -/
def app_default : App :=
  { state :=
      { entry_list_state := ⟨some 0⟩,
        command := ⟨"", .normal⟩,
        edit := { list_state := ⟨some 0⟩, input_mode := .normal, input := ⟨"", 0⟩ } },
    phase := .listView,
    entries :=
      [ { dt_added := 0, dt_taken := 0, coffee_id := 0, grinder_id := 0,
          grind_setting := .fin 0 1, duration := .fin 26 1, dose := .fin 18 1,
          output := .fin 451 10, favorite := false, notes := "" },
        { dt_added := 0, dt_taken := 600, coffee_id := 0, grinder_id := 0,
          grind_setting := .fin 0 1, duration := .fin 321 10, dose := .fin 18 1,
          output := .fin 446 10, favorite := true, notes := "" },
        { dt_added := 0, dt_taken := 1580, coffee_id := 1, grinder_id := 0,
          grind_setting := .fin 0 1, duration := .fin 209 10, dose := .fin 18 1,
          output := .fin 439 10, favorite := false, notes := "" } ],
    coffees := [⟨"B&W FSL28", 0⟩, ⟨"Folgers", 1⟩],
    grinders := [⟨"Niche Zero", 0⟩],
    exit := false }

/-! ## Helper lemmas -/

/-- Pushing a character yields a non-empty string. -/
theorem push_ne_empty (s : String) (c : Char) : s.push c ≠ "" := by
  intro h
  have hd : s.data ++ [c] = ([] : List Char) := congrArg String.data h
  simp at hd

/-- The function `handle_key_events_listview` never touches the command overlay state. -/
theorem hk_listview_command (a : App) (k : Key) :
    (a.handle_key_events_listview k).state.command = a.state.command := by
  unfold App.handle_key_events_listview
  split <;> first | rfl | (split <;> rfl)

/-- The function `handle_key_events_listview` never touches the edit-session state. -/
theorem hk_listview_edit (a : App) (k : Key) :
    (a.handle_key_events_listview k).state.edit = a.state.edit := by
  unfold App.handle_key_events_listview
  split <;> first | rfl | (split <;> rfl)

/-- What `save_input` can change: only the entries (length-preservingly) and
the edit-session inner mode; selection, buffers, phase and overlay survive. -/
theorem save_input_spec (a : App) (i : Nat) (a' : App) (h : a.save_input i = some a') :
    a'.state.command = a.state.command ∧
    a'.state.edit.input = a.state.edit.input ∧
    a'.state.edit.list_state = a.state.edit.list_state ∧
    a'.phase = a.phase ∧
    a'.entries.length = a.entries.length ∧
    a'.state.entry_list_state = a.state.entry_list_state := by
  unfold App.save_input at h
  split at h
  · simp at h
  · split at h
    · split at h
      · split at h
        all_goals first
          | (cases Option.some.inj h; exact ⟨rfl, rfl, rfl, rfl, rfl, rfl⟩)
          | (cases he : a.entries[i]? <;> rw [he] at h <;>
              first
                | exact Option.noConfusion h
                | (cases Option.some.inj h
                   exact ⟨rfl, rfl, rfl, rfl, by simp, rfl⟩))
      · cases h
        simp
    · simp at h

/-! ## C9: the field schema's classification -/

/-- C9: `Entry::field_type` is total and classifies exactly: 0 date, 1 and 2
the two enumerated-reference kinds, 8 long text, 6 (and only 6) undefined,
and every other index above 2 — including all indices 9 and up — numeric
short text. -/
theorem C9_field_schema_classification : ∀ i : Nat,
    Entry.field_type 0 = FieldType.date ∧
    Entry.field_type 1 = FieldType.coffeeType ∧
    Entry.field_type 2 = FieldType.grinderType ∧
    Entry.field_type 8 = FieldType.longString ∧
    (Entry.field_type i = FieldType.undefined ↔ i = 6) ∧
    (2 < i → i ≠ 6 → i ≠ 8 → Entry.field_type i = FieldType.shortString) := by
  intro i
  refine ⟨by decide, by decide, by decide, by decide, ?_, ?_⟩
  · unfold Entry.field_type
    split
    · simp
    · simp
    · simp
    · split_ifs with hc h8 <;> simp_all <;> omega
  · intro h1 h2 h3
    unfold Entry.field_type
    split
    any_goals omega
    split_ifs with hc <;> simp_all

/-- C9 witness: the conditional clause instantiated at index 9 (beyond the
nine documented slots). -/
theorem C9_witness :
    (2 < 9 ∧ 9 ≠ 6 ∧ 9 ≠ 8) ∧ Entry.field_type 9 = FieldType.shortString :=
  ⟨by decide, (C9_field_schema_classification 9).2.2.2.2.2 (by decide) (by decide) (by decide)⟩

/-! ## C1: edit-key on unsupported field kinds -/

/-- C1 counterexample: from the seeded start, confirm (entering
`EditingRecord 0`, field selection still at slot 0, whose kind is date) and
then the edit-key hit the `todo!` in `handle_key_events_editentry` — the run
panics (`none`) instead of being a guarded no-op. -/
theorem C1_counterexample :
    app_default.run_keys [Key.enter, Key.char 'e'] = none := by
  decide

/-- C1 amended: in EditingRecord Browsing-fields mode, the edit-key on a
field whose kind is date, enumerated-reference, or free-text-long panics
(an unimplemented `todo!`), for every entry index and every selected field of
one of those kinds; only the undefined kind (slot 6) is a guarded no-op that
leaves the application state unchanged. -/
theorem C1_amended : ∀ (a : App) (i f : Nat),
    a.state.command.input_mode = InputMode.normal →
    a.phase = Phase.editEntry i →
    a.state.edit.input_mode = InputMode.normal →
    a.state.edit.list_state.selected = some f →
    ((Entry.field_type f = FieldType.date ∨ Entry.field_type f = FieldType.coffeeType ∨
      Entry.field_type f = FieldType.grinderType ∨ Entry.field_type f = FieldType.longString) →
      a.handle_key_event (Key.char 'e') = none) ∧
    (Entry.field_type f = FieldType.undefined →
      a.handle_key_event (Key.char 'e') = some a) := by
  intro a i f hcmd hphase hmode hsel
  constructor
  · intro hkind
    rcases hkind with hk | hk | hk | hk <;>
      simp [App.handle_key_event, App.handle_key_events_editentry, hcmd, hphase, hmode, hsel, hk]
  · intro hkind
    simp [App.handle_key_event, App.handle_key_events_editentry, hcmd, hphase, hmode, hsel, hkind]

/-- The seeded app inside `EditingRecord 0` (as reached by a confirm from the
initial state), used to instantiate hypotheses of the claim theorems. -/
def app_edit0 : App :=
  { app_default with phase := Phase.editEntry 0 }

/-- C1 witness: the amended theorem applied at the seeded app in
`EditingRecord 0` with field slot 0 (kind date) selected. -/
theorem C1_amended_witness :
    app_edit0.state.command.input_mode = InputMode.normal ∧
    app_edit0.phase = Phase.editEntry 0 ∧
    app_edit0.state.edit.input_mode = InputMode.normal ∧
    app_edit0.state.edit.list_state.selected = some 0 ∧
    Entry.field_type 0 = FieldType.date ∧
    app_edit0.handle_key_event (Key.char 'e') = none :=
  ⟨rfl, rfl, rfl, rfl, rfl,
    (C1_amended app_edit0 0 0 rfl rfl rfl rfl).1 (Or.inl rfl)⟩

/-! ## C5: invalid confirm of an edit session is an atomic no-op -/

/-- C5: in Editing-field mode, confirm with a buffer that does not parse as a
decimal number leaves the application state exactly unchanged — the session
stays open, the buffer untouched, and no record attribute is written. -/
theorem C5_invalid_confirm_rejected : ∀ (a : App) (i sel : Nat),
    a.state.command.input_mode = InputMode.normal →
    a.phase = Phase.editEntry i →
    a.state.edit.input_mode = InputMode.editing →
    a.state.edit.list_state.selected = some sel →
    valid_float a.state.edit.input.value = false →
    a.handle_key_event Key.enter = some a := by
  intro a i sel hcmd hphase hmode hsel hval
  have hparse : parseF64 a.state.edit.input.value = none := by
    cases hp : parseF64 a.state.edit.input.value
    · rfl
    · rw [valid_float, hp] at hval
      simp at hval
  by_cases hft : Entry.field_type sel = FieldType.shortString
  · simp [App.handle_key_event, App.handle_key_events_editentry, App.save_input,
          hcmd, hphase, hmode, hsel, hft, hparse]
  · simp [App.handle_key_event, App.handle_key_events_editentry,
          hcmd, hphase, hmode, hsel, hft]

/-- A seeded app with an open edit session on slot 4 (dose) whose buffer has
been cleared (the empty buffer does not parse), used as concrete input. -/
def app_session_empty : App :=
  { app_default with phase := Phase.editEntry 0,
                     state.edit.input_mode := InputMode.editing,
                     state.edit.list_state := ⟨some 4⟩,
                     state.edit.input := Input.new "" }

/-- C5 witness: confirm on the open session with the (unparseable) empty
buffer changes nothing. -/
theorem C5_witness :
    app_session_empty.state.command.input_mode = InputMode.normal ∧
    app_session_empty.phase = Phase.editEntry 0 ∧
    app_session_empty.state.edit.input_mode = InputMode.editing ∧
    app_session_empty.state.edit.list_state.selected = some 4 ∧
    valid_float app_session_empty.state.edit.input.value = false ∧
    app_session_empty.handle_key_event Key.enter = some app_session_empty :=
  ⟨rfl, rfl, rfl, rfl, by decide,
    C5_invalid_confirm_rejected app_session_empty 0 4 rfl rfl rfl rfl (by decide)⟩

/-! ## C6: committing the command overlay -/

/-- C6: while the overlay is active, the commit key always clears the buffer
and deactivates the overlay (recognized command or not), sets the exit flag
exactly when the buffer holds the quit command `":q"`, and changes nothing
else; and, from an inactive overlay in any phase, trigger-key then `q` then
confirm sets the exit flag (clearing the overlay again). -/
theorem C6_commit_overlay : ∀ a : App,
    (a.state.command.input_mode = InputMode.editing →
      a.handle_key_event Key.enter =
        some { a with state.command := ⟨"", InputMode.normal⟩,
                      exit := if a.state.command.buffer = ":q" then true else a.exit }) ∧
    (a.state.command.input_mode = InputMode.normal →
     a.state.command.buffer = "" →
      a.handle_keys [Key.char ':', Key.char 'q', Key.enter] = some { a with exit := true }) := by
  intro a
  constructor
  · intro hcmd
    simp only [App.handle_key_event, App.handle_command, hcmd]
    split <;> rfl
  · intro hcmd hbuf
    obtain ⟨⟨els, ⟨cbuf, cmode⟩, ed⟩, ph, es, cs, gs, ex⟩ := a
    simp only at hcmd hbuf
    subst hcmd hbuf
    have hq : ("".push ':').push 'q' = ":q" := by decide
    simp [App.handle_keys, App.handle_key_event, App.handle_command, hq]

/-- A state with the overlay active on an unrecognized command, used as
concrete input. -/
def app_overlay_junk : App :=
  { app_default with state.command := ⟨":x", InputMode.editing⟩ }

/-- C6 witness: the first clause at an active overlay holding the
unrecognized command `":x"` (buffer cleared, overlay deactivated, exit flag
untouched), and the second clause at the seeded initial state. -/
theorem C6_witness :
    app_overlay_junk.state.command.input_mode = InputMode.editing ∧
    app_overlay_junk.handle_key_event Key.enter =
      some { app_overlay_junk with state.command := ⟨"", InputMode.normal⟩,
                                   exit := false } ∧
    app_default.state.command.input_mode = InputMode.normal ∧
    app_default.state.command.buffer = "" ∧
    app_default.handle_keys [Key.char ':', Key.char 'q', Key.enter] =
      some { app_default with exit := true } :=
  ⟨rfl, by have h := (C6_commit_overlay app_overlay_junk).1 rfl; simpa using h,
   rfl, rfl, (C6_commit_overlay app_default).2 rfl rfl⟩

/-! ## C10: the only exit from Editing-field is a parsing confirm -/

/-- C10: once the edit session is open (inner mode Editing-field), the only
keystroke that returns the inner mode to Browsing-fields is a confirm
(enter) processed outside the command overlay, in an `EditingRecord` phase,
on a selected numeric-short field, with a buffer that parses as a 64-bit
float; every other keystroke (escape and backspace included) leaves the
session open. -/
theorem C10_no_cancel_path : ∀ (a a' : App) (k : Key),
    a.state.edit.input_mode = InputMode.editing →
    a.handle_key_event k = some a' →
    a'.state.edit.input_mode = InputMode.normal →
    k = Key.enter ∧ valid_float a.state.edit.input.value = true ∧
    a.state.command.input_mode = InputMode.normal ∧
    (∃ i, a.phase = Phase.editEntry i) ∧
    (∃ sel, a.state.edit.list_state.selected = some sel ∧
            Entry.field_type sel = FieldType.shortString) := by
  intro a a' k hmode hstep hnorm
  cases hcmd : a.state.command.input_mode with
  | editing =>
    simp only [App.handle_key_event, App.handle_command, hcmd] at hstep
    split at hstep
    all_goals try split at hstep
    all_goals (cases Option.some.inj hstep; simp_all)
  | normal =>
    simp only [App.handle_key_event, hcmd] at hstep
    split at hstep
    · cases Option.some.inj hstep
      simp_all
    · split at hstep
      · -- Phase.listView
        cases Option.some.inj hstep
        rw [hk_listview_edit] at hnorm
        simp_all
      · -- Phase.editEntry idx
        rename_i idx hphase
        unfold App.handle_key_events_editentry at hstep
        rw [hmode] at hstep
        split at hstep
        case _ =>
          rename_i heqm
          simp at heqm
        split at hstep
        · simp at hstep
        rename_i sel hsel
        split at hstep
        case isFalse =>
          cases Option.some.inj hstep
          simp_all
        case isTrue hft =>
          split at hstep
          case h_1 =>
            -- the confirm key: the commit path
            unfold App.save_input at hstep
            rw [hsel] at hstep
            simp only [hft] at hstep
            split at hstep
            case h_1 val hparse =>
              exact ⟨rfl, by simp [valid_float, hparse], rfl,
                     ⟨idx, hphase⟩, ⟨sel, hsel, hft⟩⟩
            case h_2 hparse =>
              cases Option.some.inj hstep
              simp_all
          case h_2 =>
            -- any other key: the rollback path keeps the session open
            dsimp only at hstep
            split at hstep <;> (cases Option.some.inj hstep; simp_all)
      · -- dead phases
        cases Option.some.inj hstep
        simp_all

/-- A seeded app with an open edit session on slot 4 (dose) holding the seed
buffer `"18"`. -/
def app_session_18 : App :=
  { app_default with phase := Phase.editEntry 0,
                     state.edit.input_mode := InputMode.editing,
                     state.edit.list_state := ⟨some 4⟩,
                     state.edit.input := Input.new "18" }

/-- The state after confirming that session: inner mode back to
Browsing-fields (the committed value `18` equals the stored dose, so the
entries are unchanged). -/
def app_session_18_closed : App :=
  { app_session_18 with state.edit.input_mode := InputMode.normal }

/-- C10 witness: the theorem applied to the confirm keystroke on the open
session with buffer `"18"`. -/
theorem C10_witness :
    app_session_18.state.edit.input_mode = InputMode.editing ∧
    app_session_18.handle_key_event Key.enter = some app_session_18_closed ∧
    app_session_18_closed.state.edit.input_mode = InputMode.normal ∧
    (Key.enter = Key.enter ∧ valid_float app_session_18.state.edit.input.value = true ∧
     app_session_18.state.command.input_mode = InputMode.normal ∧
     (∃ i, app_session_18.phase = Phase.editEntry i) ∧
     (∃ sel, app_session_18.state.edit.list_state.selected = some sel ∧
             Entry.field_type sel = FieldType.shortString)) :=
  ⟨rfl, by decide, rfl,
   C10_no_cancel_path app_session_18 app_session_18_closed Key.enter rfl (by decide) rfl⟩

/-! ## C3: the edit-session buffer is always empty or parseable -/

/-- C3: while an edit session is open, processing any keystroke preserves
"the buffer is empty or parses as a 64-bit float"; moreover a keystroke
forwarded to the line editor (any non-confirm key reaching an open
numeric-short session) leaves the buffer at the edited text when that text is
empty or valid, and rolls it back to the pre-keystroke value when the edited
text is non-empty and unparseable. -/
theorem C3_buffer_invariant : ∀ (a a' : App) (k : Key),
    a.state.edit.input_mode = InputMode.editing →
    (a.state.edit.input.value = "" ∨ valid_float a.state.edit.input.value = true) →
    a.handle_key_event k = some a' →
    (a'.state.edit.input.value = "" ∨ valid_float a'.state.edit.input.value = true) ∧
    (∀ idx sel, a.state.command.input_mode = InputMode.normal → k ≠ Key.char ':' →
      a.phase = Phase.editEntry idx →
      a.state.edit.list_state.selected = some sel →
      Entry.field_type sel = FieldType.shortString → k ≠ Key.enter →
      a'.state.edit.input.value =
        (if valid_float (a.state.edit.input.handle_event k).value = false ∧
            (a.state.edit.input.handle_event k).value ≠ ""
         then a.state.edit.input.value
         else (a.state.edit.input.handle_event k).value)) := by
  intro a a' k hmode hinv hstep
  cases hcmd : a.state.command.input_mode with
  | editing =>
    refine ⟨?_, ?_⟩
    · simp only [App.handle_key_event, App.handle_command, hcmd] at hstep
      split at hstep
      all_goals try split at hstep
      all_goals (cases Option.some.inj hstep; simp_all)
    · intro idx sel hcn
      exact absurd hcn (by simp)
  | normal =>
    simp only [App.handle_key_event, hcmd] at hstep
    split at hstep
    · -- trigger key: overlay activation does not touch the session
      rename_i hk
      cases Option.some.inj hstep
      exact ⟨by simpa using hinv, fun idx sel _ hk' => absurd hk hk'⟩
    · split at hstep
      · -- Phase.listView
        rename_i hphase
        cases Option.some.inj hstep
        refine ⟨?_, ?_⟩
        · rw [show (a.handle_key_events_listview k).state.edit = a.state.edit from
                hk_listview_edit a k]
          exact hinv
        · intro idx sel hcn hk hph
          rw [hphase] at hph
          exact absurd hph (by simp)
      · -- Phase.editEntry idx
        rename_i idx hphase
        unfold App.handle_key_events_editentry at hstep
        rw [hmode] at hstep
        split at hstep
        case _ =>
          rename_i heqm
          simp at heqm
        split at hstep
        · simp at hstep
        rename_i sel hsel
        split at hstep
        case isFalse hft =>
          cases Option.some.inj hstep
          refine ⟨hinv, ?_⟩
          intro idx' sel' hcn hk hph hsel' hft'
          rw [hsel] at hsel'
          cases Option.some.inj hsel'
          exact absurd hft' hft
        case isTrue hft =>
          split at hstep
          case h_1 =>
            -- confirm: save_input never edits the buffer
            have hspec := save_input_spec a idx a' hstep
            refine ⟨by rw [hspec.2.1]; exact hinv, ?_⟩
            intro idx' sel' hcn hk hph hsel' hft' hke
            exact absurd rfl hke
          case h_2 =>
            -- forwarded to the line editor, then validated with rollback
            dsimp only at hstep
            split at hstep
            case isTrue hcond =>
              cases Option.some.inj hstep
              refine ⟨?_, ?_⟩
              · simpa using hinv
              · intro idx' sel' hcn hk hph hsel' hft' hke
                simp only [if_pos hcond]
                rfl
            case isFalse hcond =>
              cases Option.some.inj hstep
              refine ⟨?_, ?_⟩
              · rcases Decidable.em
                  ((a.state.edit.input.handle_event k).value = "") with he | he
                · exact Or.inl he
                · rcases Bool.eq_false_or_eq_true
                    (valid_float (a.state.edit.input.handle_event k).value) with hv | hv
                  · exact Or.inr hv
                  · exact absurd ⟨hv, he⟩ hcond
              · intro idx' sel' hcn hk hph hsel' hft' hke
                simp only [if_neg hcond]
      · -- dead phases
        rename_i hpA hpB
        cases Option.some.inj hstep
        refine ⟨hinv, ?_⟩
        intro idx sel hcn hk hph
        exact absurd hph (hpB idx)

/-- C3 witness: the session open on slot 4 with buffer `"18"` receives the
character `x`; the edited text `"18x"` is non-empty and unparseable, so the
buffer rolls back to `"18"` (which is valid). -/
theorem C3_witness :
    app_session_18.state.edit.input_mode = InputMode.editing ∧
    (app_session_18.state.edit.input.value = "" ∨
      valid_float app_session_18.state.edit.input.value = true) ∧
    (∃ a', app_session_18.handle_key_event (Key.char 'x') = some a' ∧
      (a'.state.edit.input.value = "" ∨ valid_float a'.state.edit.input.value = true) ∧
      a'.state.edit.input.value = app_session_18.state.edit.input.value) := by
  refine ⟨rfl, Or.inr (by decide), ?_⟩
  have h := C3_buffer_invariant app_session_18
    { app_session_18 with state.edit.input := Input.new "18" } (Key.char 'x')
    rfl (Or.inr (by decide)) (by decide)
  exact ⟨_, by decide, h.1,
    by rw [h.2 0 4 rfl (by decide) rfl rfl (by decide) (by decide)]; decide⟩

/-! ## C4: the overlay's active flag equals buffer non-emptiness -/

/-- The command overlay invariant: the active flag (`input_mode = editing`)
holds exactly when the buffer is non-empty. -/
def cmd_inv (a : App) : Prop :=
  a.state.command.input_mode = InputMode.editing ↔ a.state.command.buffer ≠ ""

/-- The function `handle_key_events_editentry` never touches the command overlay state. -/
theorem hk_editentry_command (a : App) (i : Nat) (k : Key) (a' : App)
    (h : a.handle_key_events_editentry i k = some a') :
    a'.state.command = a.state.command := by
  unfold App.handle_key_events_editentry at h
  split at h
  all_goals try split at h
  all_goals try split at h
  all_goals try split at h
  all_goals try dsimp only at h
  all_goals try split at h
  all_goals first
    | (cases Option.some.inj h; rfl)
    | (cases h; rfl)
    | exact (save_input_spec _ _ _ h).1
    | simp at h

/-- The render step only clamps list selections: the command overlay state
survives every draw. -/
theorem render_step_command (a a' : App) (h : a.render_step = some a') :
    a'.state.command = a.state.command := by
  unfold App.render_step at h
  split at h
  all_goals try split at h
  all_goals try split at h
  all_goals try split at h
  all_goals try split at h
  all_goals try split at h
  all_goals first
    | (cases Option.some.inj h; rfl)
    | (cases h; rfl)
    | simp at h

/-- Induction principle over the main loop: a property preserved by every
handle-then-draw step holds after any keystroke sequence. -/
theorem run_keys_invariant (P : App → Prop)
    (hstep : ∀ a k a', P a → a.run_step k = some a' → P a') :
    ∀ (ks : List Key) (a a' : App), P a → a.run_keys ks = some a' → P a' := by
  intro ks
  induction ks with
  | nil =>
    intro a a' hP h
    cases Option.some.inj h
    exact hP
  | cons k ks ih =>
    intro a a' hP h
    unfold App.run_keys at h
    split at h
    · simp at h
    · rename_i b hb
      exact ih b a' (hstep a k b hP hb) h

/-- One dispatcher step preserves the overlay invariant. -/
theorem handle_cmd_inv (a a' : App) (k : Key) (hinv : cmd_inv a)
    (h : a.handle_key_event k = some a') : cmd_inv a' := by
  unfold App.handle_key_event App.handle_command at h
  split at h
  case _ hcmd =>
    -- overlay active: its five arms re-establish the invariant directly
    split at h
    all_goals try split at h
    all_goals cases Option.some.inj h
    all_goals simp_all [cmd_inv, push_ne_empty]
  case _ hcmd =>
    split at h
    · -- trigger key: buffer gains the trigger character, overlay activates
      cases Option.some.inj h
      simp_all [cmd_inv, push_ne_empty]
    · -- phase routing never touches the overlay state
      split at h
      · cases Option.some.inj h
        unfold cmd_inv
        rw [hk_listview_command]
        exact hinv
      · have hc := hk_editentry_command _ _ _ _ h
        unfold cmd_inv
        rw [hc]
        exact hinv
      · cases Option.some.inj h
        exact hinv

/-- C4: after any keystroke sequence from the seeded initial state, the
command overlay's active flag equals the non-emptiness of its buffer. -/
theorem C4_overlay_active_iff_nonempty : ∀ (ks : List Key) (a' : App),
    app_default.run_keys ks = some a' →
    (a'.state.command.input_mode = InputMode.editing ↔
      a'.state.command.buffer ≠ "") := by
  intro ks a' h
  refine run_keys_invariant cmd_inv ?_ ks app_default a' ?_ h
  · intro a k a' hP hstep
    unfold App.run_step at hstep
    split at hstep
    · simp at hstep
    · rename_i b hb
      have hb' := handle_cmd_inv a b k hP hb
      unfold cmd_inv
      rw [render_step_command b a' hstep]
      exact hb'
  · unfold cmd_inv
    simp [app_default]

/-- The seeded initial state right after typing the overlay trigger (and the
draw that follows): buffer `":"`, overlay active. -/
def app_after_colon : App :=
  { app_default with state.command := ⟨":", InputMode.editing⟩ }

/-- C4 witness: the theorem applied to the one-key sequence consisting of the
overlay trigger. -/
theorem C4_witness :
    app_default.run_keys [Key.char ':'] = some app_after_colon ∧
    (app_after_colon.state.command.input_mode = InputMode.editing ↔
      app_after_colon.state.command.buffer ≠ "") :=
  ⟨by decide, C4_overlay_active_iff_nonempty [Key.char ':'] app_after_colon (by decide)⟩

/-! ## C7: seed formatting versus display formatting -/

/-- Characters that cannot collide with the display row's separators: not
the colon and not whitespace. -/
def sepFree (c : Char) : Prop :=
  c ≠ ':' ∧ c.isWhitespace = false

instance (c : Char) : Decidable (sepFree c) :=
  inferInstanceAs (Decidable (c ≠ ':' ∧ c.isWhitespace = false))

/-- Splitting characters of appended strings. -/
theorem toList_append_split (a b : String) : (a ++ b).toList = a.toList ++ b.toList :=
  String.data_append a b

/-- Decimal digit characters avoid the separators. -/
theorem digitChar_sepFree (m : Nat) (h : m < 10) : sepFree (Nat.digitChar m) := by
  interval_cases m <;> exact ⟨by decide, by decide⟩

/-- Every character `natDigitsAux` emits beyond its accumulator is a decimal
digit, hence separator-free. -/
theorem natDigitsAux_sepFree : ∀ (fuel n : Nat) (acc : List Char),
    (∀ c ∈ acc, sepFree c) → ∀ c ∈ natDigitsAux fuel n acc, sepFree c := by
  intro fuel
  induction fuel with
  | zero =>
    intro n acc hacc
    exact hacc
  | succ fuel ih =>
    intro n acc hacc c hc
    unfold natDigitsAux at hc
    split at hc
    · rcases List.mem_cons.mp hc with rfl | hmem
      · exact digitChar_sepFree n (by omega)
      · exact hacc c hmem
    · refine ih (n / 10) _ ?_ c hc
      intro c' hc'
      rcases List.mem_cons.mp hc' with rfl | hmem
      · exact digitChar_sepFree (n % 10) (Nat.mod_lt n (by omega))
      · exact hacc c' hmem

/-- `natDigitsAux` never returns the empty list when given fuel or a
non-empty accumulator. -/
theorem natDigitsAux_ne_nil : ∀ (fuel n : Nat) (acc : List Char),
    (fuel ≠ 0 ∨ acc ≠ []) → natDigitsAux fuel n acc ≠ [] := by
  intro fuel
  induction fuel with
  | zero =>
    intro n acc h
    rcases h with h | h
    · exact absurd rfl h
    · exact h
  | succ fuel ih =>
    intro n acc _
    unfold natDigitsAux
    split
    · simp
    · exact ih (n / 10) _ (Or.inr (by simp))

/-- A rendered natural number is never the empty string. -/
theorem natDigits_ne_nil (n : Nat) : (natDigits n).toList ≠ [] :=
  natDigitsAux_ne_nil (n + 1) n [] (Or.inl (by omega))

/-- Membership in the characters of appended strings. -/
theorem mem_toList_append {c : Char} {a b : String} :
    c ∈ (a ++ b).toList ↔ c ∈ a.toList ∨ c ∈ b.toList := by
  rw [toList_append_split]
  exact List.mem_append

/-- The fixed one-decimal rendering of any `f64` value consists of
separator-free characters and is never empty. -/
theorem fmtFixed1_sepFree (v : F64) :
    (∀ c ∈ (fmtFixed1 v).toList, sepFree c) ∧ (fmtFixed1 v).toList ≠ [] := by
  cases v with
  | fin n d =>
    constructor
    · intro c hc
      unfold fmtFixed1 at hc
      rw [mem_toList_append, mem_toList_append, mem_toList_append] at hc
      rcases hc with ((hc | hc) | hc) | hc
      · split at hc
        · have hcm : c = '-' := by simpa using hc
          subst hcm
          exact ⟨by decide, by decide⟩
        · cases hc
      · exact natDigitsAux_sepFree _ _ [] (fun c' hc' => by cases hc') c hc
      · have hcm : c = '.' := by simpa using hc
        subst hcm
        exact ⟨by decide, by decide⟩
      · exact natDigitsAux_sepFree _ _ [] (fun c' hc' => by cases hc') c hc
    · intro hnil
      unfold fmtFixed1 at hnil
      rw [toList_append_split, toList_append_split, toList_append_split] at hnil
      simp only [List.append_eq_nil] at hnil
      exact natDigits_ne_nil _ hnil.1.1.2
  | inf => exact ⟨by decide, by decide⟩
  | ninf => exact ⟨by decide, by decide⟩
  | nan => exact ⟨by decide, by decide⟩

/-- `splitOnChar` always returns at least one chunk. -/
theorem splitOnChar_ne_nil (c : Char) (l : List Char) : splitOnChar c l ≠ [] := by
  cases l with
  | nil => simp [splitOnChar]
  | cons x xs =>
    unfold splitOnChar
    split
    · simp
    · split <;> simp

/-- Splitting a list free of the separator returns it whole. -/
theorem splitOnChar_not_mem (c : Char) (l : List Char) (h : c ∉ l) :
    splitOnChar c l = [l] := by
  induction l with
  | nil => rfl
  | cons x xs ih =>
    have hx : ¬ x = c := fun hh => h (hh ▸ List.mem_cons_self x xs)
    have hxs : c ∉ xs := fun hh => h (List.mem_cons_of_mem x hh)
    unfold splitOnChar
    rw [ih hxs]
    simp [hx]

/-- Splitting at the first separator occurrence yields the prefix as the
first chunk. -/
theorem splitOnChar_append (c : Char) (pre rest : List Char) (h : c ∉ pre) :
    splitOnChar c (pre ++ c :: rest) = pre :: splitOnChar c rest := by
  induction pre with
  | nil =>
    simp only [List.nil_append]
    rw [splitOnChar]
    cases hs : splitOnChar c rest with
    | nil => exact absurd hs (splitOnChar_ne_nil c rest)
    | cons hh tt => simp
  | cons x xs ih =>
    have hx : ¬ x = c := fun hh => h (hh ▸ List.mem_cons_self x xs)
    have hxs : c ∉ xs := fun hh => h (List.mem_cons_of_mem x hh)
    simp only [List.cons_append]
    rw [splitOnChar, ih hxs]
    simp [hx]

/-- How the Editing-mode render's value-part extraction behaves on a display
row of the shape `label ++ ": " ++ value ++ unit`: with no colon in the label
or the unit, only separator-free characters in the (non-empty) value, and a
unit whose right-trimmed form `w` is empty or space-led, the extraction
returns exactly the value. -/
theorem valuePart_row (s : String) (pre vl post w : List Char)
    (hs : s.toList = pre ++ ':' :: ' ' :: (vl ++ post))
    (hpre : ':' ∉ pre)
    (hv : ∀ c ∈ vl, sepFree c)
    (hvne : vl ≠ [])
    (hpostc : ':' ∉ post)
    (hw : (List.dropWhile Char.isWhitespace post.reverse).reverse = w)
    (hwshape : w = [] ∨ ∃ u, w = ' ' :: u) :
    valuePart s = vl.asString := by
  have hrest : ':' ∉ ' ' :: (vl ++ post) := by
    intro hmem
    rcases List.mem_cons.mp hmem with h1 | h2
    · exact absurd h1 (by decide)
    · rcases List.mem_append.mp h2 with h3 | h3
      · exact (hv _ h3).1 rfl
      · exact hpostc h3
  unfold valuePart
  rw [hs, splitOnChar_append ':' pre _ hpre, splitOnChar_not_mem ':' _ hrest]
  simp only [List.getD_cons_succ, List.getD_cons_zero]
  obtain ⟨v0, vt, rfl⟩ := List.exists_cons_of_ne_nil hvne
  have hv0 := hv v0 (List.mem_cons_self v0 vt)
  have hltrim : List.dropWhile Char.isWhitespace (' ' :: (v0 :: vt ++ post))
      = v0 :: vt ++ post := by
    rw [List.dropWhile_cons_of_pos (by decide), List.cons_append,
        List.dropWhile_cons_of_neg (by simp [hv0.2])]
  have hrev : List.dropWhile Char.isWhitespace (v0 :: vt).reverse = (v0 :: vt).reverse := by
    cases hr : (v0 :: vt).reverse with
    | nil => exact absurd hr (by simp)
    | cons y ys =>
      have hy : y ∈ v0 :: vt := by
        rw [← List.mem_reverse, hr]
        exact List.mem_cons_self y ys
      rw [List.dropWhile_cons_of_neg (by simp [(hv y hy).2])]
  have htrim : trimChars (' ' :: (v0 :: vt ++ post)) = (v0 :: vt) ++ w := by
    unfold trimChars
    rw [hltrim,
        show ((v0 :: vt) ++ post).reverse = post.reverse ++ (v0 :: vt).reverse from
          List.reverse_append _ _,
        List.dropWhile_append]
    by_cases hdw : List.dropWhile Char.isWhitespace post.reverse = []
    · rw [if_pos (by simp [hdw]), hrev, List.reverse_reverse]
      have hw0 : w = [] := by rw [← hw, hdw]; rfl
      rw [hw0, List.append_nil]
    · rw [if_neg (by simp [hdw]), List.reverse_append, List.reverse_reverse, hw]
  rw [htrim]
  have hvsp : ' ' ∉ v0 :: vt := by
    intro hmem
    exact absurd (hv _ hmem).2 (by decide)
  rcases hwshape with rfl | ⟨u, rfl⟩
  · rw [List.append_nil, splitOnChar_not_mem ' ' _ hvsp]
    simp
  · rw [splitOnChar_append ' ' _ _ hvsp]
    simp

/-- C7 counterexample: on the seeded record 0, slot 4 (dose, stored value
`18.0`), the display row shows `"18.0"` (fixed one-decimal formatting) while
the edit-session seed is `"18"` (default shortest formatting) — the two
strings are not identical. -/
theorem C7_counterexample :
    app_default.field_val_as_string 0 4 = some "18" ∧
    (app_default.entries[0]?).map
        (fun e => (app_default.format_entry_details e).map
          (fun rows => valuePart (rows.getD 4 ""))) = some (some "18.0") ∧
    ("18" : String) ≠ "18.0" :=
  ⟨by decide, by decide, by decide⟩

/-- The keystrokes that open the dose's edit session from startup, retype the
buffer to `"18.55"` (each keystroke passing validation), commit it, and
reopen the session. -/
def ks_reopen_dose : List Key :=
  [Key.enter, Key.char 'j', Key.char 'j', Key.char 'j', Key.char 'j', Key.char 'e',
   Key.backspace, Key.backspace, Key.char '1', Key.char '8', Key.char '.',
   Key.char '5', Key.char '5', Key.enter, Key.char 'e']

/-- C7 amended: for every record, every numeric-short slot and every stored
value, the edit-session seed is the field's current value in default
(shortest) float formatting, while the display row's value part is the same
value in fixed one-decimal formatting — the seed round-trips with the value,
not with the displayed string. The two strings coincide exactly when the two
formattings agree: they do for one-fractional-digit values such as the
seeded 45.1, and differ otherwise — a whole value displays with a trailing
`.0` the seed omits (18.0: display `"18.0"`, seed `"18"`), and a value with
more fractional digits is rounded in the display but seeded in full
(committing `"18.55"` and reopening seeds `"18.55"`). -/
theorem C7_amended :
    (∀ (a : App) (r f : Nat) (e : Entry) (rows : List String),
      a.entries[r]? = some e →
      a.format_entry_details e = some rows →
      (f = 3 ∨ f = 4 ∨ f = 5 ∨ f = 7) →
      a.field_val_as_string r f = some (fmtDefault (entryFieldVal e f)) ∧
      valuePart (rows.getD f "") = fmtFixed1 (entryFieldVal e f)) ∧
    fmtDefault (F64.fin 451 10) = fmtFixed1 (F64.fin 451 10) ∧
    fmtDefault (F64.fin 18 1) ≠ fmtFixed1 (F64.fin 18 1) ∧
    fmtDefault (F64.fin 1855 100) ≠ fmtFixed1 (F64.fin 1855 100) ∧
    (app_default.run_keys ks_reopen_dose).map
        (fun a => (a.state.edit.input.value, (a.entries[0]?).map Entry.dose)) =
      some ("18.55", some (F64.fin 1855 100)) := by
  refine ⟨?_, by decide, by decide, by decide, by decide⟩
  intro a r f e rows hget hrows hf
  refine ⟨?_, ?_⟩
  · unfold App.field_val_as_string
    rw [hget]
    rfl
  · unfold App.format_entry_details at hrows
    split at hrows
    case h_2 => exact Option.noConfusion hrows
    case h_1 c g =>
      cases Option.some.inj hrows
      rcases hf with rfl | rfl | rfl | rfl
      · show valuePart ("  Grind setting: " ++ fmtFixed1 e.grind_setting)
            = fmtFixed1 e.grind_setting
        have hvp := fmtFixed1_sepFree e.grind_setting
        have hs3 : ("  Grind setting: " ++ fmtFixed1 e.grind_setting).toList
            = "  Grind setting".toList ++ ':' :: ' ' ::
                ((fmtFixed1 e.grind_setting).toList ++ []) := by
          rw [toList_append_split, List.append_nil,
              show "  Grind setting: ".toList = "  Grind setting".toList ++ [':', ' ']
                from by decide]
          simp
        exact valuePart_row _ _ _ _ _ hs3 (by decide) hvp.1 hvp.2 (by decide) rfl
          (Or.inl rfl)
      · show valuePart ("  Dose: " ++ fmtFixed1 e.dose ++ " g") = fmtFixed1 e.dose
        have hvp := fmtFixed1_sepFree e.dose
        have hs4 : ("  Dose: " ++ fmtFixed1 e.dose ++ " g").toList
            = "  Dose".toList ++ ':' :: ' ' ::
                ((fmtFixed1 e.dose).toList ++ " g".toList) := by
          rw [toList_append_split, toList_append_split,
              show "  Dose: ".toList = "  Dose".toList ++ [':', ' '] from by decide]
          simp
        exact valuePart_row _ _ _ " g".toList [' ', 'g'] hs4 (by decide) hvp.1 hvp.2
          (by decide) (by decide) (Or.inr ⟨['g'], by decide⟩)
      · show valuePart ("  Output: " ++ fmtFixed1 e.output ++ " g ") = fmtFixed1 e.output
        have hvp := fmtFixed1_sepFree e.output
        have hs5 : ("  Output: " ++ fmtFixed1 e.output ++ " g ").toList
            = "  Output".toList ++ ':' :: ' ' ::
                ((fmtFixed1 e.output).toList ++ " g ".toList) := by
          rw [toList_append_split, toList_append_split,
              show "  Output: ".toList = "  Output".toList ++ [':', ' '] from by decide]
          simp
        exact valuePart_row _ _ _ " g ".toList [' ', 'g'] hs5 (by decide) hvp.1 hvp.2
          (by decide) (by decide) (Or.inr ⟨['g'], by decide⟩)
      · show valuePart ("  Duration: " ++ fmtFixed1 e.duration ++ " sec")
            = fmtFixed1 e.duration
        have hvp := fmtFixed1_sepFree e.duration
        have hs7 : ("  Duration: " ++ fmtFixed1 e.duration ++ " sec").toList
            = "  Duration".toList ++ ':' :: ' ' ::
                ((fmtFixed1 e.duration).toList ++ " sec".toList) := by
          rw [toList_append_split, toList_append_split,
              show "  Duration: ".toList = "  Duration".toList ++ [':', ' ']
                from by decide]
          simp
        exact valuePart_row _ _ _ " sec".toList [' ', 's', 'e', 'c'] hs7 (by decide)
          hvp.1 hvp.2 (by decide) (by decide) (Or.inr ⟨['s', 'e', 'c'], by decide⟩)

/-- The first seeded record, spelled out. -/
def entry0 : Entry :=
  { dt_added := 0, dt_taken := 0, coffee_id := 0, grinder_id := 0,
    grind_setting := .fin 0 1, duration := .fin 26 1, dose := .fin 18 1,
    output := .fin 451 10, favorite := false, notes := "" }

/-- The display rows of the first seeded record. -/
def rows0 : List String :=
  ["  Date brewed: 0", "  Coffee: B&W FSL28", "  Grinder: Niche Zero",
   "  Grind setting: 0.0", "  Dose: 18.0 g", "  Output: 45.1 g ",
   "  Ratio: 2.5 / 1", "  Duration: 26.0 sec", "  Notes: "]

/-- C7 witness: the general clause of the amended theorem applied to the
seeded record 0 at slot 4 (dose). -/
theorem C7_witness :
    app_default.entries[0]? = some entry0 ∧
    app_default.format_entry_details entry0 = some rows0 ∧
    (4 = 3 ∨ 4 = 4 ∨ 4 = 5 ∨ 4 = 7) ∧
    app_default.field_val_as_string 0 4 = some (fmtDefault (entryFieldVal entry0 4)) ∧
    valuePart (rows0.getD 4 "") = fmtFixed1 (entryFieldVal entry0 4) :=
  ⟨by decide, by decide, Or.inr (Or.inl rfl),
   (C7_amended.1 app_default 0 4 entry0 rows0 (by decide) (by decide)
     (Or.inr (Or.inl rfl))).1,
   (C7_amended.1 app_default 0 4 entry0 rows0 (by decide) (by decide)
     (Or.inr (Or.inl rfl))).2⟩

/-! ## C8: the seeded measurement-A scenario -/

/-- The keystrokes opening an edit session on slot 3 from startup: confirm
into record 0, three move-next presses over the field list, edit-key. -/
def ks_open_slot3 : List Key :=
  [Key.enter, Key.char 'j', Key.char 'j', Key.char 'j', Key.char 'e']

/-- The keystrokes opening an edit session on slot 4 (dose) from startup. -/
def ks_open_slot4 : List Key :=
  [Key.enter, Key.char 'j', Key.char 'j', Key.char 'j', Key.char 'j', Key.char 'e']

/-- C8 counterexample: slot 3 maps to the grind setting, which the seed data
stores as `0.0` — opening its edit session seeds the buffer `"0"`, not
`"18"`; the value `18.0` lives in slot 4 (dose). -/
theorem C8_counterexample :
    (app_default.run_keys ks_open_slot3).map (fun a => a.state.edit.input.value) =
      some "0" ∧
    ¬ (app_default.run_keys ks_open_slot3).map (fun a => a.state.edit.input.value) =
      some "18" :=
  ⟨by decide, by decide⟩

/-- C8 amended: the scenario holds at slot 4 (dose), the slot that stores
`18.0` in record 0: opening it seeds buffer `"18"`; typing `x` is rejected
(buffer stays `"18"`); typing `.` then `5` yields `"18.5"`; confirm writes
dose = 18.5 (the value `185/10`) to record 0 and returns to Browsing-fields. -/
theorem C8_amended :
    (app_default.run_keys ks_open_slot4).map
        (fun a => (a.state.edit.input.value, a.state.edit.input_mode)) =
      some ("18", InputMode.editing) ∧
    (app_default.run_keys (ks_open_slot4 ++ [Key.char 'x'])).map
        (fun a => (a.state.edit.input.value, a.state.edit.input_mode)) =
      some ("18", InputMode.editing) ∧
    (app_default.run_keys (ks_open_slot4 ++ [Key.char 'x', Key.char '.', Key.char '5'])).map
        (fun a => a.state.edit.input.value) = some "18.5" ∧
    (app_default.run_keys
        (ks_open_slot4 ++ [Key.char 'x', Key.char '.', Key.char '5', Key.enter])).map
        (fun a => ((a.entries[0]?).map Entry.dose, a.state.edit.input_mode)) =
      some (some (.fin 185 10), InputMode.normal) :=
  ⟨by decide, by decide, by decide, by decide⟩

/-! ## C2: navigation clamping -/

/-- The navigation keys of the two views: move-next, move-previous,
move-first, confirm, and the back/quit key. -/
def nav_key (k : Key) : Prop :=
  k = Key.char 'j' ∨ k = Key.char 'k' ∨ k = Key.char 'g' ∨ k = Key.enter ∨ k = Key.char 'q'

/-- The selection invariant observed at every frame of a navigation-only run:
both modes inactive, both selections present, the entry selection below the
entry count, the field selection below the nine displayed rows, and any
`EditingRecord` phase index valid. -/
def nav_inv (a : App) : Prop :=
  a.state.command.input_mode = InputMode.normal ∧
  a.state.edit.input_mode = InputMode.normal ∧
  (∃ i, a.state.entry_list_state.selected = some i ∧ i < a.entries.length) ∧
  (∃ j, a.state.edit.list_state.selected = some j ∧ j < 9) ∧
  (∀ i, a.phase = Phase.editEntry i → i < a.entries.length) ∧
  0 < a.entries.length

/-- The function `format_entry_details` always produces the nine display rows. -/
theorem format_entry_details_length (a : App) (e : Entry) (rows : List String)
    (h : a.format_entry_details e = some rows) : rows.length = 9 := by
  unfold App.format_entry_details at h
  split at h
  · cases Option.some.inj h
    rfl
  · simp at h

/-- A successful draw re-establishes the navigation invariant, given the
pre-draw facts the handler leaves behind: both modes inactive, both
selections present, a valid `EditingRecord` index with an in-bounds entry
selection, and (when listing) an in-bounds field selection. -/
theorem render_step_nav (b a' : App)
    (hstep : b.render_step = some a')
    (hcmd : b.state.command.input_mode = InputMode.normal)
    (hemode : b.state.edit.input_mode = InputMode.normal)
    (hentry : ∃ i, b.state.entry_list_state.selected = some i)
    (hedit : ∃ j, b.state.edit.list_state.selected = some j)
    (hpos : 0 < b.entries.length)
    (hA : b.phase = Phase.listView → ∃ j, b.state.edit.list_state.selected = some j ∧ j < 9)
    (hB : ∀ i, b.phase = Phase.editEntry i →
          ∃ x, b.state.entry_list_state.selected = some x ∧ x < b.entries.length) :
    nav_inv a' := by
  unfold App.render_step at hstep
  split at hstep
  case _ hphase =>
    -- the Listing view clamps the entry selection
    split at hstep
    case isFalse => exact Option.noConfusion hstep
    case isTrue =>
      cases Option.some.inj hstep
      obtain ⟨i, hi⟩ := hentry
      obtain ⟨j, hj, hjlt⟩ := hA hphase
      have hlen : ¬ b.entries.length = 0 := by omega
      refine ⟨hcmd, hemode,
        ⟨min i (b.entries.length - 1), ?_,
          show min i (b.entries.length - 1) < b.entries.length by omega⟩,
        ⟨j, hj, hjlt⟩, ?_, hpos⟩
      · show (b.state.entry_list_state.clampTo b.entries.length).selected = _
        simp [ListState.clampTo, hlen, hi]
      · intro i' hi'
        have hi2 : b.phase = Phase.editEntry i' := hi'
        rw [hphase] at hi2
        exact absurd hi2 (by simp)
  case _ idx hphase =>
    -- the EditingRecord view clamps the field selection to the nine rows
    split at hstep
    case _ => exact Option.noConfusion hstep
    case _ e hget =>
      split at hstep
      case _ => exact Option.noConfusion hstep
      case _ rows hrows =>
        have hidx : idx < b.entries.length := by
          rcases List.getElem?_eq_some_iff.mp hget with ⟨h9, _⟩
          exact h9
        have hrows9 : rows.length = 9 := format_entry_details_length b e rows hrows
        split at hstep
        case _ =>
          cases Option.some.inj hstep
          obtain ⟨j, hj⟩ := hedit
          obtain ⟨x, hx, hxlt⟩ := hB idx hphase
          have hlen : ¬ rows.length = 0 := by omega
          refine ⟨hcmd, hemode, ⟨x, hx, hxlt⟩,
            ⟨min j (rows.length - 1), ?_, by omega⟩, ?_, hpos⟩
          · show (b.state.edit.list_state.clampTo rows.length).selected = _
            simp [ListState.clampTo, hlen, hj]
          · intro i' hi'
            have hi2 : b.phase = Phase.editEntry i' := hi'
            rw [hphase] at hi2
            cases Phase.editEntry.inj hi2
            exact hidx
        case _ =>
          rename_i heqm
          rw [hemode] at heqm
          exact absurd heqm (by simp)
  case _ =>
    exact Option.noConfusion hstep
  case _ =>
    exact Option.noConfusion hstep

/-- One navigation keystroke, handled then drawn, preserves the navigation
invariant. -/
theorem nav_step (a : App) (k : Key) (a' : App)
    (hinv : nav_inv a) (hk : nav_key k) (hstep : a.run_step k = some a') :
    nav_inv a' := by
  obtain ⟨hcmd, hemode, ⟨ei, hei, heilt⟩, ⟨fj, hfj, hfjlt⟩, hph, hpos⟩ := hinv
  have hkne : ¬ k = Key.char ':' := by
    rcases hk with rfl | rfl | rfl | rfl | rfl <;> decide
  unfold App.run_step at hstep
  cases hb : a.handle_key_event k with
  | none =>
    rw [hb] at hstep
    exact Option.noConfusion hstep
  | some b =>
    rw [hb] at hstep
    simp only [App.handle_key_event, hcmd, if_neg hkne] at hb
    cases hphase : a.phase with
    | listView =>
      rw [hphase] at hb
      have hb3 : some (a.handle_key_events_listview k) = some b := hb
      cases Option.some.inj hb3
      rcases hk with rfl | rfl | rfl | rfl | rfl
      · -- move-next
        have hbeq : a.handle_key_events_listview (Key.char 'j') =
            { a with state.entry_list_state := a.state.entry_list_state.select_next } := rfl
        rw [hbeq] at hstep
        refine render_step_nav _ _ hstep hcmd hemode
          ⟨min (ei + 1) USIZE_MAX, by simp [ListState.select_next, hei]⟩
          ⟨fj, hfj⟩ hpos (fun _ => ⟨fj, hfj, hfjlt⟩) ?_
        intro i hi
        have hi2 : a.phase = Phase.editEntry i := hi
        rw [hphase] at hi2
        exact absurd hi2 (by simp)
      · -- move-previous
        have hbeq : a.handle_key_events_listview (Key.char 'k') =
            { a with state.entry_list_state := a.state.entry_list_state.select_previous } := rfl
        rw [hbeq] at hstep
        refine render_step_nav _ _ hstep hcmd hemode
          ⟨ei - 1, by simp [ListState.select_previous, hei]⟩
          ⟨fj, hfj⟩ hpos (fun _ => ⟨fj, hfj, hfjlt⟩) ?_
        intro i hi
        have hi2 : a.phase = Phase.editEntry i := hi
        rw [hphase] at hi2
        exact absurd hi2 (by simp)
      · -- move-first
        have hbeq : a.handle_key_events_listview (Key.char 'g') =
            { a with state.entry_list_state := a.state.entry_list_state.select_first } := rfl
        rw [hbeq] at hstep
        refine render_step_nav _ _ hstep hcmd hemode
          ⟨0, by simp [ListState.select_first]⟩
          ⟨fj, hfj⟩ hpos (fun _ => ⟨fj, hfj, hfjlt⟩) ?_
        intro i hi
        have hi2 : a.phase = Phase.editEntry i := hi
        rw [hphase] at hi2
        exact absurd hi2 (by simp)
      · -- confirm: descend into the selected record
        have hbeq : a.handle_key_events_listview Key.enter =
            { a with phase := Phase.editEntry ei } := by
          unfold App.handle_key_events_listview
          rw [hei]
        rw [hbeq] at hstep
        refine render_step_nav _ _ hstep hcmd hemode ⟨ei, hei⟩ ⟨fj, hfj⟩ hpos ?_ ?_
        · intro h
          have hx : Phase.editEntry ei = Phase.listView := h
          exact absurd hx (by simp)
        · intro i hi
          have hi2 : Phase.editEntry ei = Phase.editEntry i := hi
          cases Phase.editEntry.inj hi2
          exact ⟨ei, hei, heilt⟩
      · -- quit key
        have hbeq : a.handle_key_events_listview (Key.char 'q') =
            { a with exit := true } := rfl
        rw [hbeq] at hstep
        refine render_step_nav _ _ hstep hcmd hemode ⟨ei, hei⟩ ⟨fj, hfj⟩ hpos
          (fun _ => ⟨fj, hfj, hfjlt⟩) ?_
        intro i hi
        have hi2 : a.phase = Phase.editEntry i := hi
        rw [hphase] at hi2
        exact absurd hi2 (by simp)
    | editEntry idx =>
      rw [hphase] at hb
      have hb2 : a.handle_key_events_editentry idx k = some b := hb
      unfold App.handle_key_events_editentry at hb2
      rw [hemode] at hb2
      rcases hk with rfl | rfl | rfl | rfl | rfl
      · -- move-next over the field list
        have hbeq : b =
            { a with state.edit.list_state := a.state.edit.list_state.select_next } :=
          (Option.some.inj hb2).symm
        rw [hbeq] at hstep
        refine render_step_nav _ _ hstep hcmd hemode ⟨ei, hei⟩
          ⟨min (fj + 1) USIZE_MAX, by simp [ListState.select_next, hfj]⟩ hpos ?_ ?_
        · intro h
          have hx : a.phase = Phase.listView := h
          rw [hphase] at hx
          exact absurd hx (by simp)
        · intro i hi
          have hi2 : a.phase = Phase.editEntry i := hi
          rw [hphase] at hi2
          cases Phase.editEntry.inj hi2
          exact ⟨ei, hei, heilt⟩
      · -- move-previous over the field list
        have hbeq : b =
            { a with state.edit.list_state := a.state.edit.list_state.select_previous } :=
          (Option.some.inj hb2).symm
        rw [hbeq] at hstep
        refine render_step_nav _ _ hstep hcmd hemode ⟨ei, hei⟩
          ⟨fj - 1, by simp [ListState.select_previous, hfj]⟩ hpos ?_ ?_
        · intro h
          have hx : a.phase = Phase.listView := h
          rw [hphase] at hx
          exact absurd hx (by simp)
        · intro i hi
          have hi2 : a.phase = Phase.editEntry i := hi
          rw [hphase] at hi2
          cases Phase.editEntry.inj hi2
          exact ⟨ei, hei, heilt⟩
      · -- `g` is a no-op in this view
        have hbeq : b = a := (Option.some.inj hb2).symm
        rw [hbeq] at hstep
        refine render_step_nav _ _ hstep hcmd hemode ⟨ei, hei⟩ ⟨fj, hfj⟩ hpos
          (fun _ => ⟨fj, hfj, hfjlt⟩) ?_
        intro i hi
        rw [hphase] at hi
        cases Phase.editEntry.inj hi
        exact ⟨ei, hei, heilt⟩
      · -- enter is a no-op in Browsing-fields
        have hbeq : b = a := (Option.some.inj hb2).symm
        rw [hbeq] at hstep
        refine render_step_nav _ _ hstep hcmd hemode ⟨ei, hei⟩ ⟨fj, hfj⟩ hpos
          (fun _ => ⟨fj, hfj, hfjlt⟩) ?_
        intro i hi
        rw [hphase] at hi
        cases Phase.editEntry.inj hi
        exact ⟨ei, hei, heilt⟩
      · -- back key: return to the Listing view
        have hbeq : b = { a with phase := Phase.listView } := (Option.some.inj hb2).symm
        rw [hbeq] at hstep
        refine render_step_nav _ _ hstep hcmd hemode ⟨ei, hei⟩ ⟨fj, hfj⟩ hpos
          (fun _ => ⟨fj, hfj, hfjlt⟩) ?_
        intro i hi
        have hi2 : Phase.listView = Phase.editEntry i := hi
        exact absurd hi2 (by simp)
    | editCoffee =>
      -- dead phase: the key is ignored and the next draw panics
      rw [hphase] at hb
      have hb3 : some a = some b := hb
      cases Option.some.inj hb3
      have hstep2 : a.render_step = some a' := hstep
      unfold App.render_step at hstep2
      rw [hphase] at hstep2
      exact Option.noConfusion hstep2
    | editGrinder =>
      rw [hphase] at hb
      have hb3 : some a = some b := hb
      cases Option.some.inj hb3
      have hstep2 : a.render_step = some a' := hstep
      unfold App.render_step at hstep2
      rw [hphase] at hstep2
      exact Option.noConfusion hstep2

/-- Induction over a navigation-only keystroke run. -/
theorem run_keys_invariant_of (P : App → Prop) (Q : Key → Prop)
    (hstep : ∀ a k a', P a → Q k → a.run_step k = some a' → P a') :
    ∀ (ks : List Key) (a a' : App), P a → (∀ k ∈ ks, Q k) →
      a.run_keys ks = some a' → P a' := by
  intro ks
  induction ks with
  | nil =>
    intro a a' hP _ h
    cases Option.some.inj h
    exact hP
  | cons k ks ih =>
    intro a a' hP hQ h
    unfold App.run_keys at h
    split at h
    · simp at h
    · rename_i b hbq
      exact ih b a' (hstep a k b hP (hQ k (by simp)) hbq) (fun k' hk' => hQ k' (by simp [hk'])) h

/-- C2 counterexample: the dispatcher alone does not clamp move-next at the
top — three move-next presses from the seeded start (selection 0, three
records) leave the stored selection at index 3, which is not `< 3` and not
the claimed index 2; only the following draw clamps it back. -/
theorem C2_counterexample :
    (app_default.handle_keys [Key.char 'j', Key.char 'j', Key.char 'j']).map
        (fun a => (a.state.entry_list_state.selected, a.entries.length)) =
      some (some 3, 3) := by
  decide

/-- C2 amended: the dispatcher clamps navigation only at the bottom
(saturating decrement); the upper clamp to the displayed list's length is
applied by the draw that follows every processed keystroke in the main loop.
Hence after each handle-then-draw iteration of a navigation-only run the
selection, if present, is `≥ 0` and `< length` of the currently displayed
list (entry list in Listing, nine-row field list in EditingRecord); with
three seeded records, two move-next presses land on index 2, and after a
third move-next the selection the next frame shows is still index 2 (the
transiently stored index 3 is clamped back by that draw). -/
theorem C2_amended :
    (∀ (ks : List Key) (a' : App), (∀ k ∈ ks, nav_key k) →
      app_default.run_keys ks = some a' → nav_inv a') ∧
    (∀ (a : App) (k : Key) (a' : App), nav_inv a → nav_key k →
      a.run_step k = some a' → nav_inv a') ∧
    nav_inv app_default ∧
    (app_default.run_keys [Key.char 'j', Key.char 'j']).map
        (fun a => a.state.entry_list_state.selected) = some (some 2) ∧
    (app_default.run_keys [Key.char 'j', Key.char 'j', Key.char 'j']).map
        (fun a => a.state.entry_list_state.selected) = some (some 2) := by
  have hbase : nav_inv app_default := by
    refine ⟨rfl, rfl, ⟨0, rfl, by decide⟩, ⟨0, rfl, by decide⟩, ?_, by decide⟩
    intro i hi
    simp [app_default] at hi
  exact ⟨fun ks a' hq h => run_keys_invariant_of nav_inv nav_key nav_step ks app_default a'
           hbase hq h,
         nav_step, hbase, by decide, by decide⟩

/-- C2 witness: the sequence part of the amended theorem applied to the
three-move-next run, whose final state indeed satisfies the invariant. -/
theorem C2_witness :
    (∀ k ∈ [Key.char 'j', Key.char 'j', Key.char 'j'], nav_key k) ∧
    (∃ a', app_default.run_keys [Key.char 'j', Key.char 'j', Key.char 'j'] = some a' ∧
      nav_inv a') := by
  have hq : ∀ k ∈ [Key.char 'j', Key.char 'j', Key.char 'j'], nav_key k := by
    intro k hk
    simp only [List.mem_cons, List.mem_singleton] at hk
    rcases hk with rfl | rfl | rfl | h
    · exact Or.inl rfl
    · exact Or.inl rfl
    · exact Or.inl rfl
    · exact absurd h (by simp)
  refine ⟨hq, ?_⟩
  cases hrun : app_default.run_keys [Key.char 'j', Key.char 'j', Key.char 'j'] with
  | none => exact absurd hrun (by decide)
  | some a' => exact ⟨a', rfl, C2_amended.1 [Key.char 'j', Key.char 'j', Key.char 'j'] a' hq hrun⟩

end CoffeeTracking
